import Mathlib

/-!
Shallow embedding of the cache2go `CacheTable` / `CacheItem` core
(files `cache.go`, `cacheitem.go`, `errors.go`).

Modelling conventions:
* Keys and stored data are opaque in Go (`interface{}`); we model both as `Nat`.
* `time.Time` instants and `time.Duration` values are `int64` nanoseconds in Go;
  we model both as `Int` (no claim under study depends on 64-bit wrap-around).
* The sequential semantics of each exported operation is modelled; every
  operation that may fire application callbacks or the loader additionally
  returns the ordered trace of those invocations (`List Event`), so that
  callback order and loader usage are observable.  Callbacks are opaque to the
  table, so they are modelled by identifiers (`CbId`).
* `ct.cleanupTimer : Option Int` records whether a one-shot timer is armed and,
  if so, the duration it was armed for (`time.AfterFunc(d, ...)`); a stopped /
  never-started timer is `none`.
* Go's `map[interface{}]*CacheItem` is modelled by an association list whose
  keys are unique; uniqueness is the `WF` predicate and is a hypothesis of the
  theorems that need it.
-/

namespace Cache2go

/-- Identifier of an application-supplied callback function. -/
abbrev CbId := Nat

/-- One cached key/value pair with its timing metadata (`CacheItem` in
`cacheitem.go`). -/
structure CacheItem where
  key : Nat
  data : Nat
  lifeSpan : Int
  createTime : Int
  accessedTime : Int
  accessCount : Int
  aboutToExpire : List CbId
deriving DecidableEq

/-- `NewCacheItem(key, value, lifeSpan)`: fresh item, `createTime` and
`accessedTime` both set to `now`, `accessCount` zero, no callbacks. -/
def NewCacheItem (key data : Nat) (lifeSpan : Int) (now : Int) : CacheItem :=
  { key := key
    data := data
    lifeSpan := lifeSpan
    createTime := now
    accessedTime := now
    accessCount := 0
    aboutToExpire := [] }

/-- `(*CacheItem).KeepAlive()`: under the item lock, bump `accessCount` and
reset `accessedTime` to now, in one atomic state update. -/
def CacheItem.KeepAlive (ci : CacheItem) (now : Int) : CacheItem :=
  { ci with accessCount := ci.accessCount + 1, accessedTime := now }

/-- Observable external invocations made by a table operation, in order. -/
inductive Event where
  /-- an `addedItem` table callback invoked with the inserted item -/
  | tableAdd (cb : CbId) (item : CacheItem)
  /-- a `deletedItem` table callback invoked with the removed item -/
  | tableDelete (cb : CbId) (item : CacheItem)
  /-- an item's `aboutToExpire` callback invoked with the key -/
  | entryExpire (cb : CbId) (key : Nat)
  /-- the `loadData` loader invoked with the missing key -/
  | loaderCall (key : Nat)
  /-- start of a run of `expirationCheck` evaluated at instant `now` -/
  | reconcile (now : Int)
deriving DecidableEq

/-- The two user-visible errors of `errors.go`. -/
inductive CacheError where
  | notFound
  | notFoundOrLoadable
deriving DecidableEq

/-- The `loadData` hook: `func(key, args ...interface{}) *CacheItem`
(`nil` result becomes `none`). -/
abbrev Loader := Nat → List Nat → Option CacheItem

/-- The cache table (`CacheTable` in `cache.go`).  The `sync.RWMutex` and the
`*log.Logger` have no sequential observable effect and are not modelled. -/
structure CacheTable where
  name : Nat
  items : List (Nat × CacheItem)
  cleanupTimer : Option Int
  cleanupDuration : Int
  loadData : Option Loader
  addedItem : List CbId
  deletedItem : List CbId

/-- Keys of the association list modelling the Go map are unique. -/
abbrev WF (ct : CacheTable) : Prop := (ct.items.map Prod.fst).Nodup

/-- Go map read `ct.items[key]`. -/
def mapLookup (k : Nat) : List (Nat × CacheItem) → Option CacheItem
  | [] => none
  | (k', v) :: rest => if k' = k then some v else mapLookup k rest

/-- Go map write `ct.items[key] = item` (insert or overwrite). -/
def mapInsert (k : Nat) (v : CacheItem) : List (Nat × CacheItem) → List (Nat × CacheItem)
  | [] => [(k, v)]
  | (k', v') :: rest => if k' = k then (k, v) :: rest else (k', v') :: mapInsert k v rest

/-- Go map removal `delete(ct.items, key)`. -/
def mapErase (k : Nat) : List (Nat × CacheItem) → List (Nat × CacheItem)
  | [] => []
  | (k', v') :: rest => if k' = k then rest else (k', v') :: mapErase k rest

/-- Trace of one successful `deleteInternal`: every table-level `deletedItem`
callback fires (with the item), then every per-item `aboutToExpire` callback
(with the key), in registration order. -/
def deleteEvents (deletedCbs : List CbId) (item : CacheItem) (key : Nat) : List Event :=
  deletedCbs.map (fun cb => Event.tableDelete cb item)
    ++ item.aboutToExpire.map (fun cb => Event.entryExpire cb key)

/-- `deleteInternal(key)`: on a missing key, `ErrCacheNotFound`; otherwise fire
the callbacks (table-level first, then per-item) and remove the mapping. -/
def deleteInternal (ct : CacheTable) (key : Nat) :
    CacheTable × Except CacheError CacheItem × List Event :=
  match mapLookup key ct.items with
  | none => (ct, Except.error CacheError.notFound, [])
  | some item =>
      ({ ct with items := mapErase key ct.items },
       Except.ok item,
       deleteEvents ct.deletedItem item key)

/-- Remaining lifetime `lifeSpan - now.Sub(accessedTime)` of an item at `now`. -/
def remaining (now : Int) (v : CacheItem) : Int :=
  v.lifeSpan - (now - v.accessedTime)

/-- The `smallestDuration` update of the sweep loop: replace the running value
when the candidate is smaller or when nothing was recorded yet (`0`). -/
def minDur (s cur : Int) : Int := if cur < s ∨ s = 0 then cur else s

/-- The `for k, v := range ct.items` loop body of `expirationCheck`: skip items
with `lifeSpan == 0`; delete items whose remaining lifetime at `now` is `<= 0`
(inlining `deleteInternal`'s success path, the one taken sequentially, so the
same callback trace is emitted); fold the remaining lifetimes of the survivors
with `minDur`. -/
def sweepLoop (now : Int) (dcbs : List CbId) :
    List (Nat × CacheItem) → Int → List (Nat × CacheItem) × Int × List Event
  | [], smallest => ([], smallest, [])
  | (k, v) :: rest, smallest =>
      if v.lifeSpan = 0 then
        let r := sweepLoop now dcbs rest smallest
        ((k, v) :: r.1, r.2.1, r.2.2)
      else
        if remaining now v ≤ 0 then
          let r := sweepLoop now dcbs rest smallest
          (r.1, r.2.1, deleteEvents dcbs v k ++ r.2.2)
        else
          let r := sweepLoop now dcbs rest (minDur smallest (remaining now v))
          ((k, v) :: r.1, r.2.1, r.2.2)

/-- `expirationCheck()` evaluated at instant `now`: stop any armed timer, sweep
(deleting every due time-bounded item), record the smallest surviving remaining
lifetime as `cleanupDuration`, and arm a one-shot timer for exactly that
duration when it is positive. -/
def expirationCheck (ct : CacheTable) (now : Int) : CacheTable × List Event :=
  let r := sweepLoop now ct.deletedItem ct.items 0
  ({ ct with
      items := r.1
      cleanupDuration := r.2.1
      cleanupTimer := if 0 < r.2.1 then some r.2.1 else none },
   Event.reconcile now :: r.2.2)

/-- `addInternal(item)`: insert (overwriting any prior mapping), fire the
`addedItem` callbacks, then run `expirationCheck` exactly when the new item's
`lifeSpan` is positive and either no duration is recorded (`expDur == 0`) or
the new `lifeSpan` undercuts it. -/
def addInternal (ct : CacheTable) (item : CacheItem) (now : Int) :
    CacheTable × List Event :=
  let ct1 := { ct with items := mapInsert item.key item ct.items }
  let expDur := ct.cleanupDuration
  let addEvs := ct.addedItem.map (fun cb => Event.tableAdd cb item)
  if 0 < item.lifeSpan ∧ (expDur = 0 ∨ item.lifeSpan < expDur) then
    let r := expirationCheck ct1 now
    (r.1, addEvs ++ r.2)
  else
    (ct1, addEvs)

/-- `Add(key, data, lifeSpan)`: build a fresh item and insert it; the freshly
built item is returned to the caller. -/
def Add (ct : CacheTable) (key data : Nat) (lifeSpan : Int) (now : Int) :
    CacheTable × CacheItem × List Event :=
  let item := NewCacheItem key data lifeSpan now
  let r := addInternal ct item now
  (r.1, item, r.2)

/-- `Delete(key)` forwards to `deleteInternal`. -/
def Delete (ct : CacheTable) (key : Nat) :
    CacheTable × Except CacheError CacheItem × List Event :=
  deleteInternal ct key

/-- `Exists(key)`: pure membership check. -/
def Exists (ct : CacheTable) (key : Nat) : Bool :=
  (mapLookup key ct.items).isSome

/-- `NotFoundAdd(key, lifeSpan, data)`: check-then-act insert-if-absent; never
touches the loader. -/
def NotFoundAdd (ct : CacheTable) (key : Nat) (lifeSpan : Int) (data : Nat) (now : Int) :
    CacheTable × Bool × List Event :=
  match mapLookup key ct.items with
  | some _ => (ct, false, [])
  | none =>
      let item := NewCacheItem key data lifeSpan now
      let r := addInternal ct item now
      (r.1, true, r.2)

/-- `Value(key, args...)`: on a hit, `KeepAlive` the item (the caller holds the
same pointer, hence sees the updated item) and return it; on a miss, consult
the loader if configured; a loader hit is re-inserted via `Add` under the
queried key while the loader's own item is returned. -/
def Value (ct : CacheTable) (key : Nat) (args : List Nat) (now : Int) :
    CacheTable × Except CacheError CacheItem × List Event :=
  match mapLookup key ct.items with
  | some r =>
      let r' := r.KeepAlive now
      ({ ct with items := mapInsert key r' ct.items }, Except.ok r', [])
  | none =>
      match ct.loadData with
      | some loader =>
          match loader key args with
          | some item =>
              let a := Add ct key item.data item.lifeSpan now
              (a.1, Except.ok item, Event.loaderCall key :: a.2.2)
          | none => (ct, Except.error CacheError.notFoundOrLoadable, [Event.loaderCall key])
      | none => (ct, Except.error CacheError.notFound, [])

/-- `Flush()`: drop all items, reset `cleanupDuration`, stop the timer; no
callbacks fire. -/
def Flush (ct : CacheTable) : CacheTable × List Event :=
  ({ ct with items := [], cleanupDuration := 0, cleanupTimer := none }, [])

/-- `Count()`. -/
def Count (ct : CacheTable) : Nat := ct.items.length

/-- `CacheItemPair`: key together with its access count. -/
structure CacheItemPair where
  Key : Nat
  AccessCount : Int
deriving DecidableEq

/-- Insertion step of the descending sort on `CacheItemPairList`. -/
def pairInsert (p : CacheItemPair) : List CacheItemPair → List CacheItemPair
  | [] => [p]
  | q :: rest =>
      if q.AccessCount < p.AccessCount then p :: q :: rest else q :: pairInsert p rest

/-- `sort.Sort(p)` with `Less(i, j) = p[i].AccessCount > p[j].AccessCount`:
the contract is any permutation sorted non-increasingly by `AccessCount`
(Go's sort is unstable and tie order is not contractual); modelled by
insertion sort, which satisfies that contract. -/
def pairSort (l : List CacheItemPair) : List CacheItemPair :=
  l.foldr pairInsert []

/-- The collection loop of `MostAccessed`: walk the sorted pairs, stop once
`count` items have been considered, re-look each key up in the live map and
keep the hits. -/
def mostAccessedLoop (items : List (Nat × CacheItem)) (count : Int) :
    List CacheItemPair → Int → List CacheItem
  | [], _ => []
  | p :: rest, c =>
      if count ≤ c then []
      else
        match mapLookup p.Key items with
        | some item => item :: mostAccessedLoop items count rest (c + 1)
        | none => mostAccessedLoop items count rest (c + 1)

/-- `MostAccessed(count)`: snapshot `(key, accessCount)` pairs, sort descending
by access count, return up to `count` items looked up again from the map. -/
def MostAccessed (ct : CacheTable) (count : Int) : List CacheItem :=
  let p := ct.items.map (fun kv => CacheItemPair.mk kv.1 kv.2.accessCount)
  mostAccessedLoop ct.items count (pairSort p) 0

/-- Non-increasing order on pairs: the order `sort.Sort` establishes with
`Less(i, j) = p[i].AccessCount > p[j].AccessCount`. -/
def pairGE (p q : CacheItemPair) : Prop := q.AccessCount ≤ p.AccessCount

/-- An entry survives the sweep at `now` when it is permanent (`lifeSpan == 0`)
or its remaining lifetime is still positive. -/
def keepEntry (now : Int) (kv : Nat × CacheItem) : Bool :=
  decide (kv.2.lifeSpan = 0) || decide (0 < remaining now kv.2)

/-- Remaining lifetimes folded by the sweep: those of the entries with
`lifeSpan ≠ 0` that are not yet due at `now`. -/
def survivors (now : Int) (l : List (Nat × CacheItem)) : List Int :=
  (l.filter (fun kv => !decide (kv.2.lifeSpan = 0) && decide (0 < remaining now kv.2))).map
    (fun kv => remaining now kv.2)

/-- Is an event a loader invocation? -/
def isLoaderCall : Event → Bool
  | Event.loaderCall _ => true
  | _ => false

/-! Concrete sample data used by the witness theorems. -/

/-- Sample item that is overdue at instant 10 (`lifeSpan 5`, last access 0). -/
def itemExp : CacheItem := NewCacheItem 1 11 5 0

/-- Sample item still live at instant 10 (`lifeSpan 20`, last access 0). -/
def itemLive : CacheItem := NewCacheItem 2 22 20 0

/-- Sample permanent item (`lifeSpan 0`). -/
def itemPerm : CacheItem := NewCacheItem 3 33 0 0

/-- Sample table holding the three sample items, one table-level callback of
each kind, no loader. -/
def ctW : CacheTable :=
  { name := 0
    items := [(1, itemExp), (2, itemLive), (3, itemPerm)]
    cleanupTimer := none
    cleanupDuration := 0
    loadData := none
    addedItem := [4]
    deletedItem := [3] }

/-- Sample item carrying a per-entry expiry callback (id 7). -/
def itemD : CacheItem :=
  { NewCacheItem 1 11 5 0 with aboutToExpire := [7] }

/-- Sample table for the deletion-order theorems: one item with expiry
callback 7, one table-level delete callback 3. -/
def ctD : CacheTable :=
  { name := 0
    items := [(1, itemD)]
    cleanupTimer := none
    cleanupDuration := 0
    loadData := none
    addedItem := []
    deletedItem := [3] }

/-- Sample items with access counts 5 / 1 / 3 under keys 1 / 2 / 3. -/
def itemA : CacheItem := { NewCacheItem 1 10 0 0 with accessCount := 5 }

/-- See `itemA`. -/
def itemB : CacheItem := { NewCacheItem 2 20 0 0 with accessCount := 1 }

/-- See `itemA`. -/
def itemC : CacheItem := { NewCacheItem 3 30 0 0 with accessCount := 3 }

/-- Sample table with access counts `{A:5, B:1, C:3}`. -/
def ctABC : CacheTable :=
  { name := 0
    items := [(1, itemA), (2, itemB), (3, itemC)]
    cleanupTimer := none
    cleanupDuration := 0
    loadData := none
    addedItem := []
    deletedItem := [] }

/-- Sample item produced by the sample loader: stale metadata on purpose
(nonzero access count, its own key, a registered expiry callback). -/
def itemL : CacheItem :=
  { key := 77
    data := 42
    lifeSpan := 9
    createTime := -4
    accessedTime := -4
    accessCount := 13
    aboutToExpire := [9] }

/-- Sample empty table whose loader always produces `itemL`. -/
def ctL : CacheTable :=
  { name := 0
    items := []
    cleanupTimer := none
    cleanupDuration := 0
    loadData := some (fun _ _ => some itemL)
    addedItem := []
    deletedItem := [] }

/-! ### Association-list lemmas -/

theorem mem_of_mapLookup {k : Nat} {v : CacheItem} :
    ∀ {l : List (Nat × CacheItem)}, mapLookup k l = some v → (k, v) ∈ l := by
  intro l
  induction l with
  | nil => intro h; simp [mapLookup] at h
  | cons kv rest ih =>
      intro h
      obtain ⟨k', v'⟩ := kv
      by_cases hk : k' = k
      · subst hk
        simp [mapLookup] at h
        simp [h]
      · simp [mapLookup, hk] at h
        exact List.mem_cons_of_mem _ (ih h)

theorem mapLookup_of_mem {k : Nat} {v : CacheItem} :
    ∀ {l : List (Nat × CacheItem)}, (k, v) ∈ l → (l.map Prod.fst).Nodup →
      mapLookup k l = some v := by
  intro l
  induction l with
  | nil => intro h; simp at h
  | cons kv rest ih =>
      intro hmem hnd
      obtain ⟨k', v'⟩ := kv
      simp only [List.map_cons, List.nodup_cons] at hnd
      rcases List.mem_cons.1 hmem with heq | htail
      · cases heq
        simp [mapLookup]
      · have hk : k' ≠ k := by
          intro hkk
          subst hkk
          exact hnd.1 (List.mem_map.2 ⟨(k', v), htail, rfl⟩)
        simp only [mapLookup, if_neg hk]
        exact ih htail hnd.2

theorem mapLookup_mapInsert_self (k : Nat) (v : CacheItem) :
    ∀ (l : List (Nat × CacheItem)), mapLookup k (mapInsert k v l) = some v := by
  intro l
  induction l with
  | nil => simp [mapInsert, mapLookup]
  | cons kv rest ih =>
      obtain ⟨k', v'⟩ := kv
      by_cases hk : k' = k
      · simp [mapInsert, hk, mapLookup]
      · simp [mapInsert, hk, mapLookup, ih]

theorem mapInsert_keys_subset (k : Nat) (v : CacheItem) :
    ∀ (l : List (Nat × CacheItem)) (a : Nat),
      a ∈ (mapInsert k v l).map Prod.fst → a = k ∨ a ∈ l.map Prod.fst := by
  intro l
  induction l with
  | nil =>
      intro a ha
      simp [mapInsert] at ha
      simp [ha]
  | cons kv rest ih =>
      intro a ha
      obtain ⟨k', v'⟩ := kv
      by_cases hk : k' = k
      · simp only [mapInsert, if_pos hk, List.map_cons, List.mem_cons] at ha
        rcases ha with h | h
        · left; exact h
        · right; simp [h]
      · simp only [mapInsert, if_neg hk, List.map_cons, List.mem_cons] at ha
        rcases ha with h | h
        · right; simp [h]
        · rcases ih a h with hL | hR
          · left; exact hL
          · right; simp [hR]

theorem nodup_mapInsert (k : Nat) (v : CacheItem) :
    ∀ {l : List (Nat × CacheItem)}, (l.map Prod.fst).Nodup →
      ((mapInsert k v l).map Prod.fst).Nodup := by
  intro l
  induction l with
  | nil => intro; simp [mapInsert]
  | cons kv rest ih =>
      intro hnd
      obtain ⟨k', v'⟩ := kv
      simp only [List.map_cons, List.nodup_cons] at hnd
      by_cases hk : k' = k
      · subst hk
        simpa [mapInsert] using hnd
      · simp only [mapInsert, if_neg hk, List.map_cons, List.nodup_cons]
        refine ⟨?_, ih hnd.2⟩
        intro hmem
        rcases mapInsert_keys_subset k v rest k' hmem with h | h
        · exact hk h
        · exact hnd.1 h

theorem mapLookup_mapErase_self (k : Nat) :
    ∀ {l : List (Nat × CacheItem)}, (l.map Prod.fst).Nodup →
      mapLookup k (mapErase k l) = none := by
  intro l
  induction l with
  | nil => intro; simp [mapErase, mapLookup]
  | cons kv rest ih =>
      intro hnd
      obtain ⟨k', v'⟩ := kv
      simp only [List.map_cons, List.nodup_cons] at hnd
      by_cases hk : k' = k
      · subst hk
        simp only [mapErase, if_pos rfl]
        -- k' no longer occurs in rest
        cases hlk : mapLookup k' rest with
        | none => exact hlk
        | some w =>
            exact absurd (List.mem_map.2 ⟨(k', w), mem_of_mapLookup hlk, rfl⟩) hnd.1
      · simp [mapErase, hk, mapLookup]
        exact ih hnd.2

theorem mapLookup_filter_of_some {k : Nat} {v : CacheItem} {p : Nat × CacheItem → Bool}
    {l : List (Nat × CacheItem)} (hnd : (l.map Prod.fst).Nodup)
    (hlk : mapLookup k l = some v) (hp : p (k, v) = true) :
    mapLookup k (l.filter p) = some v := by
  have hnd' : ((l.filter p).map Prod.fst).Nodup :=
    ((l.filter_sublist).map Prod.fst).nodup hnd
  exact mapLookup_of_mem (List.mem_filter.2 ⟨mem_of_mapLookup hlk, hp⟩) hnd'

/-! ### Sweep-loop characterisation -/

theorem sweepLoop_items (now : Int) (dcbs : List CbId) :
    ∀ (l : List (Nat × CacheItem)) (s : Int),
      (sweepLoop now dcbs l s).1 = l.filter (keepEntry now) := by
  intro l
  induction l with
  | nil => intro s; rfl
  | cons kv rest ih =>
      intro s
      obtain ⟨k, v⟩ := kv
      by_cases h0 : v.lifeSpan = 0
      · simp [sweepLoop, h0, keepEntry, ih]
      · by_cases hr : remaining now v ≤ 0
        · have : ¬ (0 < remaining now v) := by omega
          simp [sweepLoop, h0, hr, keepEntry, this, ih]
        · have : 0 < remaining now v := by omega
          simp [sweepLoop, h0, hr, keepEntry, this, ih]

theorem sweepLoop_smallest (now : Int) (dcbs : List CbId) :
    ∀ (l : List (Nat × CacheItem)) (s : Int),
      (sweepLoop now dcbs l s).2.1 = (survivors now l).foldl minDur s := by
  intro l
  induction l with
  | nil => intro s; rfl
  | cons kv rest ih =>
      intro s
      obtain ⟨k, v⟩ := kv
      by_cases h0 : v.lifeSpan = 0
      · simp [sweepLoop, h0, survivors, ih]
      · by_cases hr : remaining now v ≤ 0
        · have : ¬ (0 < remaining now v) := by omega
          simp [sweepLoop, h0, hr, survivors, this, ih]
        · have : 0 < remaining now v := by omega
          simp [sweepLoop, h0, hr, survivors, this, ih]

theorem foldl_minDur_mem :
    ∀ (rs : List Int) (s : Int), 0 < s → (∀ r ∈ rs, 0 < r) →
      (rs.foldl minDur s ∈ s :: rs ∧ ∀ r ∈ s :: rs, rs.foldl minDur s ≤ r) := by
  intro rs
  induction rs with
  | nil => intro s hs _; simp
  | cons r rest ih =>
      intro s hs hpos
      have hr : 0 < r := hpos r (by simp)
      have hstep : List.foldl minDur s (r :: rest) = List.foldl minDur (minDur s r) rest := rfl
      have hmin : minDur s r = r ∨ minDur s r = s := by
        unfold minDur
        by_cases h : r < s ∨ s = 0 <;> simp [h]
      have hminpos : 0 < minDur s r := by rcases hmin with h | h <;> omega
      have hminle_s : minDur s r ≤ s := by
        by_cases h : r < s ∨ s = 0
        · simp only [minDur, if_pos h]; omega
        · simp only [minDur, if_neg h]; omega
      have hminle_r : minDur s r ≤ r := by
        by_cases h : r < s ∨ s = 0
        · simp only [minDur, if_pos h]; omega
        · simp only [minDur, if_neg h]; omega
      have hrest : ∀ x ∈ rest, 0 < x := fun x hx => hpos x (by simp [hx])
      obtain ⟨ihmem, ihle⟩ := ih (minDur s r) hminpos hrest
      rw [hstep]
      constructor
      · rcases List.mem_cons.1 ihmem with h | h
        · rcases hmin with hm | hm
          · rw [h, hm]; simp
          · rw [h, hm]; simp
        · simp [h]
      · intro x hx
        rcases List.mem_cons.1 hx with h | h
        · subst h
          exact le_trans (ihle _ (by simp)) hminle_s
        · rcases List.mem_cons.1 h with h' | h'
          · subst h'
            exact le_trans (ihle _ (by simp)) hminle_r
          · exact ihle _ (by simp [h'])

theorem foldl_minDur_zero (rs : List Int) (h : ∀ r ∈ rs, 0 < r) :
    (rs = [] → rs.foldl minDur 0 = 0) ∧
    (rs ≠ [] → (rs.foldl minDur 0 ∈ rs ∧ ∀ r ∈ rs, rs.foldl minDur 0 ≤ r)) := by
  cases rs with
  | nil => simp
  | cons r rest =>
      refine ⟨by simp, fun _ => ?_⟩
      have hr : 0 < r := h r (by simp)
      have hstep : List.foldl minDur 0 (r :: rest) = List.foldl minDur r rest := by
        simp [minDur]
      have hrest : ∀ x ∈ rest, 0 < x := fun x hx => h x (by simp [hx])
      obtain ⟨hmem, hle⟩ := foldl_minDur_mem rest r hr hrest
      rw [hstep]
      exact ⟨hmem, fun x hx => hle x hx⟩

theorem survivors_pos (now : Int) (l : List (Nat × CacheItem)) :
    ∀ r ∈ survivors now l, 0 < r := by
  intro r hr
  unfold survivors at hr
  rcases List.mem_map.1 hr with ⟨kv, hkv, hrem⟩
  have := (List.mem_filter.1 hkv).2
  simp at this
  omega

/-! ### `expirationCheck` characterisation -/

theorem expirationCheck_items (ct : CacheTable) (now : Int) :
    (expirationCheck ct now).1.items = ct.items.filter (keepEntry now) := by
  simp [expirationCheck, sweepLoop_items]

theorem expirationCheck_duration (ct : CacheTable) (now : Int) :
    (expirationCheck ct now).1.cleanupDuration =
      (survivors now ct.items).foldl minDur 0 := by
  simp [expirationCheck, sweepLoop_smallest]

theorem expirationCheck_timer (ct : CacheTable) (now : Int) :
    (expirationCheck ct now).1.cleanupTimer =
      if 0 < (expirationCheck ct now).1.cleanupDuration
      then some (expirationCheck ct now).1.cleanupDuration else none := rfl

/-- On tables whose lifespans are nonnegative durations, the remaining
lifetimes of the surviving time-bounded entries are exactly the values the
sweep folded. -/
theorem survivors_eq_post (ct : CacheTable) (now : Int)
    (hls : ∀ kv ∈ ct.items, 0 ≤ kv.2.lifeSpan) :
    ((ct.items.filter (keepEntry now)).filter
        (fun kv => decide (0 < kv.2.lifeSpan))).map (fun kv => remaining now kv.2) =
      survivors now ct.items := by
  unfold survivors
  rw [List.filter_filter]
  congr 1
  apply List.filter_congr
  intro kv hkv
  have hnn := hls kv hkv
  by_cases h0 : kv.2.lifeSpan = 0
  · simp [keepEntry, h0]
  · by_cases hrem : 0 < remaining now kv.2
    · have hpos : 0 < kv.2.lifeSpan := by omega
      simp [keepEntry, h0, hrem, hpos]
    · simp [keepEntry, h0, hrem]

/-- Inserting an item whose `accessedTime` is the current instant via
`addInternal` leaves it retrievable under its key: the reconcile pass an
insert may trigger cannot remove the item it just inserted. -/
theorem addInternal_lookup_self (ct : CacheTable) (item : CacheItem) (now : Int)
    (hwf : WF ct) (hacc : item.accessedTime = now) :
    mapLookup item.key (addInternal ct item now).1.items = some item := by
  unfold addInternal
  by_cases hc : 0 < item.lifeSpan ∧
      (ct.cleanupDuration = 0 ∨ item.lifeSpan < ct.cleanupDuration)
  · simp only [if_pos hc]
    rw [expirationCheck_items]
    apply mapLookup_filter_of_some (nodup_mapInsert _ _ hwf)
      (mapLookup_mapInsert_self _ _ _)
    have hpos := hc.1
    simp [keepEntry, remaining, hacc]
    omega
  · simp only [if_neg hc]
    exact mapLookup_mapInsert_self _ _ _

theorem isLoaderCall_deleteEvents (dcbs : List CbId) (item : CacheItem) (key : Nat) :
    ∀ e ∈ deleteEvents dcbs item key, isLoaderCall e = false := by
  intro e he
  unfold deleteEvents at he
  rcases List.mem_append.1 he with h | h
  · rcases List.mem_map.1 h with ⟨cb, _, rfl⟩
    rfl
  · rcases List.mem_map.1 h with ⟨cb, _, rfl⟩
    rfl

theorem isLoaderCall_sweepLoop (now : Int) (dcbs : List CbId) :
    ∀ (l : List (Nat × CacheItem)) (s : Int) (e : Event),
      e ∈ (sweepLoop now dcbs l s).2.2 → isLoaderCall e = false := by
  intro l
  induction l with
  | nil => intro s e he; simp [sweepLoop] at he
  | cons kv rest ih =>
      intro s e he
      obtain ⟨k, v⟩ := kv
      by_cases h0 : v.lifeSpan = 0
      · simp only [sweepLoop, if_pos h0] at he
        exact ih _ _ he
      · by_cases hr : remaining now v ≤ 0
        · simp only [sweepLoop, if_neg h0, if_pos hr] at he
          rcases List.mem_append.1 he with h | h
          · exact isLoaderCall_deleteEvents _ _ _ e h
          · exact ih _ _ h
        · simp only [sweepLoop, if_neg h0, if_neg hr] at he
          exact ih _ _ he

theorem isLoaderCall_addInternal (ct : CacheTable) (item : CacheItem) (now : Int) :
    ∀ e ∈ (addInternal ct item now).2, isLoaderCall e = false := by
  intro e he
  unfold addInternal at he
  by_cases hc : 0 < item.lifeSpan ∧
      (ct.cleanupDuration = 0 ∨ item.lifeSpan < ct.cleanupDuration)
  · simp only [if_pos hc] at he
    rcases List.mem_append.1 he with h | h
    · rcases List.mem_map.1 h with ⟨cb, _, rfl⟩
      rfl
    · unfold expirationCheck at h
      rcases List.mem_cons.1 h with rfl | h'
      · rfl
      · exact isLoaderCall_sweepLoop now _ _ _ e h'
  · simp only [if_neg hc] at he
    rcases List.mem_map.1 he with ⟨cb, _, rfl⟩
    rfl

/-! ### Sorting and collection lemmas for `MostAccessed` -/

theorem pairInsert_perm (p : CacheItemPair) :
    ∀ l : List CacheItemPair, (pairInsert p l).Perm (p :: l) := by
  intro l
  induction l with
  | nil => exact List.Perm.refl _
  | cons q rest ih =>
      by_cases h : q.AccessCount < p.AccessCount
      · simp only [pairInsert, if_pos h]
        exact List.Perm.refl _
      · simp only [pairInsert, if_neg h]
        exact (ih.cons q).trans (List.Perm.swap p q rest)

theorem pairSort_perm (l : List CacheItemPair) : (pairSort l).Perm l := by
  induction l with
  | nil => exact List.Perm.refl _
  | cons p rest ih => exact (pairInsert_perm p (pairSort rest)).trans (ih.cons p)

theorem pairInsert_sorted (p : CacheItemPair) :
    ∀ l : List CacheItemPair, l.Pairwise pairGE → (pairInsert p l).Pairwise pairGE := by
  intro l
  induction l with
  | nil => intro; simp [pairInsert]
  | cons q rest ih =>
      intro hs
      rcases List.pairwise_cons.1 hs with ⟨hq, hrest⟩
      by_cases h : q.AccessCount < p.AccessCount
      · simp only [pairInsert, if_pos h]
        refine List.pairwise_cons.2 ⟨?_, hs⟩
        intro b hb
        rcases List.mem_cons.1 hb with rfl | hb'
        · unfold pairGE; omega
        · have := hq b hb'
          unfold pairGE at this ⊢
          omega
      · simp only [pairInsert, if_neg h]
        refine List.pairwise_cons.2 ⟨?_, ih hrest⟩
        intro b hb
        have hb' := (pairInsert_perm p rest).mem_iff.1 hb
        rcases List.mem_cons.1 hb' with rfl | hb''
        · unfold pairGE; omega
        · exact hq b hb''

theorem pairSort_sorted (l : List CacheItemPair) : (pairSort l).Pairwise pairGE := by
  induction l with
  | nil => simp [pairSort]
  | cons p rest ih => exact pairInsert_sorted p (pairSort rest) ih

theorem mostAccessedLoop_eq (items : List (Nat × CacheItem)) (n : Int) :
    ∀ (l : List CacheItemPair) (c : Int),
      mostAccessedLoop items n l c =
        (l.take (n - c).toNat).filterMap (fun p => mapLookup p.Key items) := by
  intro l
  induction l with
  | nil => intro c; simp [mostAccessedLoop]
  | cons p rest ih =>
      intro c
      by_cases h : n ≤ c
      · have h0 : (n - c).toNat = 0 := by omega
        simp [mostAccessedLoop, h, h0]
      · have ht : (n - c).toNat = (n - (c + 1)).toNat + 1 := by omega
        rw [ht]
        cases hlk : mapLookup p.Key items with
        | some item => simp [mostAccessedLoop, h, hlk, ih]
        | none => simp [mostAccessedLoop, h, hlk, ih]

theorem pairwise_filterMap_rel (f : CacheItemPair → Option CacheItem)
    (R : CacheItemPair → CacheItemPair → Prop) (S : CacheItem → CacheItem → Prop) :
    ∀ l : List CacheItemPair, l.Pairwise R →
      (∀ p q a b, p ∈ l → q ∈ l → R p q → f p = some a → f q = some b → S a b) →
      (l.filterMap f).Pairwise S := by
  intro l
  induction l with
  | nil => intro _ _; simp
  | cons p rest ih =>
      intro hp h
      rcases List.pairwise_cons.1 hp with ⟨hhead, hrest⟩
      have hsub : ∀ p' q' a b, p' ∈ rest → q' ∈ rest → R p' q' →
          f p' = some a → f q' = some b → S a b :=
        fun p' q' a b hp' hq' =>
          h p' q' a b (List.mem_cons_of_mem _ hp') (List.mem_cons_of_mem _ hq')
      cases hf : f p with
      | none =>
          rw [List.filterMap_cons_none hf]
          exact ih hrest hsub
      | some a =>
          rw [List.filterMap_cons_some hf]
          refine List.pairwise_cons.2 ⟨?_, ih hrest hsub⟩
          intro b hb
          rcases List.mem_filterMap.1 hb with ⟨q, hq, hfq⟩
          exact h p q a b (List.mem_cons_self p rest) (List.mem_cons_of_mem _ hq)
            (hhead q hq) hf hfq

/-- When a snapshot pair resolves through the live map, the found item carries
exactly the snapshot's access count (keys unique). -/
theorem lookup_accessCount (ct : CacheTable) (hwf : WF ct) (p : CacheItemPair)
    (hp : p ∈ ct.items.map (fun kv => CacheItemPair.mk kv.1 kv.2.accessCount))
    {v : CacheItem} (hv : mapLookup p.Key ct.items = some v) :
    v.accessCount = p.AccessCount := by
  rcases List.mem_map.1 hp with ⟨kv, hkv, rfl⟩
  have hl : mapLookup kv.1 ct.items = some kv.2 :=
    mapLookup_of_mem (show (kv.1, kv.2) ∈ ct.items from hkv) hwf
  have : some kv.2 = some v := hl.symm.trans hv
  cases this
  rfl

/-! ### Claim theorems -/

/-- C1: after a completed run of `expirationCheck` evaluated at `now` (on a
table whose lifespans are nonnegative durations): every entry with
`lifeSpan > 0` whose remaining lifetime `lifeSpan - (now - accessedTime)` is
`≤ 0` has been removed from the table; `cleanupDuration` equals the minimum
remaining lifetime over the surviving entries with `lifeSpan > 0`, or `0` when
no such entry survives; and a one-shot timer is armed for exactly that
duration if and only if it is positive. -/
theorem expirationCheck_reconciles (ct : CacheTable) (now : Int)
    (hls : ∀ kv ∈ ct.items, 0 ≤ kv.2.lifeSpan) :
    (∀ kv ∈ ct.items, 0 < kv.2.lifeSpan → remaining now kv.2 ≤ 0 →
        kv ∉ (expirationCheck ct now).1.items) ∧
    (let rs := ((expirationCheck ct now).1.items.filter
        (fun kv => decide (0 < kv.2.lifeSpan))).map (fun kv => remaining now kv.2)
     (rs = [] → (expirationCheck ct now).1.cleanupDuration = 0) ∧
     (rs ≠ [] → (expirationCheck ct now).1.cleanupDuration ∈ rs ∧
        ∀ r ∈ rs, (expirationCheck ct now).1.cleanupDuration ≤ r)) ∧
    ((expirationCheck ct now).1.cleanupTimer =
      if 0 < (expirationCheck ct now).1.cleanupDuration
      then some (expirationCheck ct now).1.cleanupDuration else none) := by
  refine ⟨?_, ?_, expirationCheck_timer ct now⟩
  · intro kv hmem hpos hdue hmem'
    rw [expirationCheck_items] at hmem'
    have hk := (List.mem_filter.1 hmem').2
    simp [keepEntry] at hk
    omega
  · have hrs : ((expirationCheck ct now).1.items.filter
        (fun kv => decide (0 < kv.2.lifeSpan))).map (fun kv => remaining now kv.2) =
          survivors now ct.items := by
      rw [expirationCheck_items]
      exact survivors_eq_post ct now hls
    rw [expirationCheck_duration]
    simp only [hrs]
    exact foldl_minDur_zero (survivors now ct.items) (survivors_pos now ct.items)

/-- C1 witness: on the sample table at instant 10, the lifespans are
nonnegative, the overdue entry `(1, itemExp)` is gone, and the remaining
bookkeeping matches. -/
theorem expirationCheck_reconciles_witness :
    ((∀ kv ∈ ctW.items, 0 ≤ kv.2.lifeSpan) ∧
      0 < itemExp.lifeSpan ∧ remaining 10 itemExp ≤ 0) ∧
    (1, itemExp) ∉ (expirationCheck ctW 10).1.items :=
  ⟨⟨by decide, by decide, by decide⟩,
    (expirationCheck_reconciles ctW 10 (by decide)).1 (1, itemExp)
      (by decide) (by decide) (by decide)⟩

/-- C3: an entry stored with `lifeSpan = 0` is never removed by a run of the
scheduler's sweep, whatever the table state and the evaluation instant. -/
theorem zero_lifespan_never_swept (ct : CacheTable) (now : Int) (k : Nat) (v : CacheItem)
    (hmem : (k, v) ∈ ct.items) (h0 : v.lifeSpan = 0) :
    (k, v) ∈ (expirationCheck ct now).1.items := by
  rw [expirationCheck_items]
  exact List.mem_filter.2 ⟨hmem, by simp [keepEntry, h0]⟩

/-- C3 witness: the permanent sample entry survives a sweep arbitrarily far in
the future. -/
theorem zero_lifespan_never_swept_witness :
    ((3, itemPerm) ∈ ctW.items ∧ itemPerm.lifeSpan = 0) ∧
      (3, itemPerm) ∈ (expirationCheck ctW 1000000000).1.items :=
  ⟨⟨by decide, by decide⟩,
    zero_lifespan_never_swept ctW 1000000000 3 itemPerm (by decide) (by decide)⟩

/-- C2: `Add(key, data, lifeSpan)` runs an immediate `expirationCheck` if and
only if `lifeSpan > 0` and either no timer is armed (recorded pending-sweep
duration `0`) or `lifeSpan` undercuts the recorded duration. -/
theorem add_triggers_reconcile_iff (ct : CacheTable) (key data : Nat) (lifeSpan now : Int) :
    Event.reconcile now ∈ (Add ct key data lifeSpan now).2.2 ↔
      0 < lifeSpan ∧ (ct.cleanupDuration = 0 ∨ lifeSpan < ct.cleanupDuration) := by
  unfold Add addInternal
  by_cases hc : 0 < lifeSpan ∧ (ct.cleanupDuration = 0 ∨ lifeSpan < ct.cleanupDuration)
  · simp [NewCacheItem, hc, expirationCheck]
  · simp [NewCacheItem, hc]

/-- C2 witness: inserting lifespan 5 into the sample table (recorded duration
0) does trigger a reconcile pass. -/
theorem add_triggers_reconcile_iff_witness :
    Event.reconcile 0 ∈ (Add ctW 9 99 5 0).2.2 :=
  (add_triggers_reconcile_iff ctW 9 99 5 0).mpr (by decide)

/-- C4 counterexample: deleting key 1 from the sample table fires the
table-level delete callback (id 3) before the per-entry expiry callback
(id 7) — not the other way around, as the claim states. -/
theorem delete_callback_order_counterexample :
    (Delete ctD 1).2.2 = [Event.tableDelete 3 itemD, Event.entryExpire 7 1] ∧
    (Delete ctD 1).2.2 ≠ [Event.entryExpire 7 1, Event.tableDelete 3 itemD] := by
  decide

/-- C4 amended: on a present key, `Delete` fires the table-level delete
callbacks first and then the entry's per-entry expiry callbacks, each exactly
once in registration order, all before the key becomes absent (the returned
state no longer contains the key, so a subsequent `Exists` is false). -/
theorem delete_fires_callbacks_in_order (ct : CacheTable) (key : Nat) (item : CacheItem)
    (hwf : WF ct) (hmem : mapLookup key ct.items = some item) :
    (Delete ct key).2.2 =
      ct.deletedItem.map (fun cb => Event.tableDelete cb item) ++
        item.aboutToExpire.map (fun cb => Event.entryExpire cb key) ∧
    (Delete ct key).2.1 = Except.ok item ∧
    mapLookup key (Delete ct key).1.items = none ∧
    Exists (Delete ct key).1 key = false := by
  unfold Delete deleteInternal
  rw [hmem]
  refine ⟨rfl, rfl, ?_, ?_⟩
  · exact mapLookup_mapErase_self key hwf
  · unfold Exists
    simp [mapLookup_mapErase_self key hwf]

/-- C4 amended witness. -/
theorem delete_fires_callbacks_in_order_witness :
    (WF ctD ∧ mapLookup 1 ctD.items = some itemD) ∧
      Exists (Delete ctD 1).1 1 = false :=
  ⟨⟨by decide, by decide⟩,
    (delete_fires_callbacks_in_order ctD 1 itemD (by decide) (by decide)).2.2.2⟩

/-- C5: `Value` returns `ErrCacheNotFound` exactly when the key is absent and
no loader is configured, returns `ErrCacheNotFoundOrLoadable` exactly when the
key is absent and the configured loader declines (`nil`), and in both error
cases the entry map is unchanged. -/
theorem value_error_taxonomy (ct : CacheTable) (key : Nat) (args : List Nat) (now : Int) :
    ((Value ct key args now).2.1 = Except.error CacheError.notFound ↔
      mapLookup key ct.items = none ∧ ct.loadData = none) ∧
    ((Value ct key args now).2.1 = Except.error CacheError.notFoundOrLoadable ↔
      mapLookup key ct.items = none ∧
        ∃ f, ct.loadData = some f ∧ f key args = none) ∧
    (∀ e, (Value ct key args now).2.1 = Except.error e →
      (Value ct key args now).1.items = ct.items) := by
  unfold Value
  cases hlk : mapLookup key ct.items with
  | some r => simp [hlk]
  | none =>
      cases hld : ct.loadData with
      | none => simp [hld]
      | some f =>
          cases hf : f key args with
          | some item => simp [hf]
          | none => simp [hf]

/-- C5 witness: a miss with no loader on the sample table reports
`ErrCacheNotFound`. -/
theorem value_error_taxonomy_witness :
    (Value ctW 99 [] 0).2.1 = Except.error CacheError.notFound :=
  (value_error_taxonomy ctW 99 [] 0).1.mpr ⟨by decide, rfl⟩

/-- C6: `KeepAlive` bumps `accessCount` by exactly one and sets `accessedTime`
to now — both in the one atomic state update the definition performs — and
leaves every other field unchanged. -/
theorem keepAlive_effect (ci : CacheItem) (now : Int) :
    (ci.KeepAlive now).accessCount = ci.accessCount + 1 ∧
    (ci.KeepAlive now).accessedTime = now ∧
    (ci.KeepAlive now).key = ci.key ∧
    (ci.KeepAlive now).data = ci.data ∧
    (ci.KeepAlive now).lifeSpan = ci.lifeSpan ∧
    (ci.KeepAlive now).createTime = ci.createTime ∧
    (ci.KeepAlive now).aboutToExpire = ci.aboutToExpire :=
  ⟨rfl, rfl, rfl, rfl, rfl, rfl, rfl⟩

/-- C9: `Flush` leaves `Count = 0`, pending-sweep duration `0`, no armed
timer, and fires no per-entry expiry callbacks and no table-level delete
callbacks (its trace is empty). -/
theorem flush_resets (ct : CacheTable) :
    Count (Flush ct).1 = 0 ∧
    (Flush ct).1.cleanupDuration = 0 ∧
    (Flush ct).1.cleanupTimer = none ∧
    (Flush ct).2 = [] :=
  ⟨rfl, rfl, rfl, rfl⟩

/-- C7: `NotFoundAdd` on a present key returns false with the table unchanged;
on an absent key it inserts a fresh entry with exactly the given key, data and
lifespan and returns true; in neither case does it invoke the loader. -/
theorem notFoundAdd_spec (ct : CacheTable) (key : Nat) (lifeSpan : Int) (data : Nat)
    (now : Int) (hwf : WF ct) :
    (∀ v, mapLookup key ct.items = some v →
      NotFoundAdd ct key lifeSpan data now = (ct, false, [])) ∧
    (mapLookup key ct.items = none →
      (NotFoundAdd ct key lifeSpan data now).2.1 = true ∧
      mapLookup key (NotFoundAdd ct key lifeSpan data now).1.items =
        some (NewCacheItem key data lifeSpan now)) ∧
    (∀ e ∈ (NotFoundAdd ct key lifeSpan data now).2.2, isLoaderCall e = false) := by
  cases hlk : mapLookup key ct.items with
  | some v =>
      have hred : NotFoundAdd ct key lifeSpan data now = (ct, false, []) := by
        unfold NotFoundAdd
        rw [hlk]
      rw [hred]
      exact ⟨fun _ _ => rfl,
        fun h => absurd h (Option.some_ne_none v),
        fun e he => absurd he (List.not_mem_nil e)⟩
  | none =>
      have hred : NotFoundAdd ct key lifeSpan data now =
          ((addInternal ct (NewCacheItem key data lifeSpan now) now).1, true,
            (addInternal ct (NewCacheItem key data lifeSpan now) now).2) := by
        unfold NotFoundAdd
        rw [hlk]
      rw [hred]
      refine ⟨fun v h => absurd h.symm (Option.some_ne_none v),
        fun _ => ⟨rfl, ?_⟩, fun e he => ?_⟩
      · exact addInternal_lookup_self ct (NewCacheItem key data lifeSpan now) now hwf rfl
      · exact isLoaderCall_addInternal ct (NewCacheItem key data lifeSpan now) now e he

/-- C7 witness: key 9 is absent from the sample table and gets inserted. -/
theorem notFoundAdd_spec_witness :
    (WF ctW ∧ mapLookup 9 ctW.items = none) ∧
      (NotFoundAdd ctW 9 5 77 0).2.1 = true :=
  ⟨⟨by decide, by decide⟩,
    ((notFoundAdd_spec ctW 9 5 77 0 (by decide)).2.1 (by decide)).1⟩

/-- C10: on a miss where the configured loader yields an item, `Value` returns
the loader's item itself, while the table stores under the queried key (not
the loader item's own key) a freshly created entry carrying the loader item's
data and lifespan but fresh metadata: zero access count, creation and access
stamps at the insertion instant, and no expiry callbacks. -/
theorem value_loader_stores_fresh (ct : CacheTable) (key : Nat) (args : List Nat)
    (now : Int) (f : Loader) (item : CacheItem) (hwf : WF ct)
    (habs : mapLookup key ct.items = none) (hld : ct.loadData = some f)
    (hf : f key args = some item) :
    (Value ct key args now).2.1 = Except.ok item ∧
    mapLookup key (Value ct key args now).1.items =
      some (NewCacheItem key item.data item.lifeSpan now) ∧
    (NewCacheItem key item.data item.lifeSpan now).key = key ∧
    (NewCacheItem key item.data item.lifeSpan now).data = item.data ∧
    (NewCacheItem key item.data item.lifeSpan now).lifeSpan = item.lifeSpan ∧
    (NewCacheItem key item.data item.lifeSpan now).accessCount = 0 ∧
    (NewCacheItem key item.data item.lifeSpan now).createTime = now ∧
    (NewCacheItem key item.data item.lifeSpan now).accessedTime = now ∧
    (NewCacheItem key item.data item.lifeSpan now).aboutToExpire = [] := by
  have hred : Value ct key args now =
      ((Add ct key item.data item.lifeSpan now).1, Except.ok item,
        Event.loaderCall key :: (Add ct key item.data item.lifeSpan now).2.2) := by
    unfold Value
    rw [habs, hld]
    simp only [hf]
  rw [hred]
  refine ⟨rfl, ?_, rfl, rfl, rfl, rfl, rfl, rfl, rfl⟩
  unfold Add
  exact addInternal_lookup_self ct (NewCacheItem key item.data item.lifeSpan now) now hwf rfl

/-- C8: for every table and limit `n ≥ 0`, `MostAccessed n` returns at most
`n` entries, each present in the table, in non-increasing order of
`accessCount`; no entry left out has an `accessCount` strictly greater than
any returned entry; and on access counts `{A:5, B:1, C:3}` the call
`MostAccessed 2` returns `[A, C]` in that order. -/
theorem mostAccessed_spec (ct : CacheTable) (n : Int) (_hn : 0 ≤ n) (hwf : WF ct) :
    (MostAccessed ct n).length ≤ n.toNat ∧
    (∀ item ∈ MostAccessed ct n, ∃ k, mapLookup k ct.items = some item) ∧
    (MostAccessed ct n).Pairwise (fun a b => b.accessCount ≤ a.accessCount) ∧
    (∀ kv ∈ ct.items, kv.2 ∉ MostAccessed ct n →
      ∀ r ∈ MostAccessed ct n, kv.2.accessCount ≤ r.accessCount) ∧
    MostAccessed ctABC 2 = [itemA, itemC] := by
  have hMA : MostAccessed ct n =
      ((pairSort (ct.items.map (fun kv => CacheItemPair.mk kv.1 kv.2.accessCount))).take
          n.toNat).filterMap (fun p => mapLookup p.Key ct.items) := by
    unfold MostAccessed
    rw [mostAccessedLoop_eq]
    norm_num
  have hpairs_mem : ∀ q ∈ (pairSort (ct.items.map
      (fun kv => CacheItemPair.mk kv.1 kv.2.accessCount))).take n.toNat,
      q ∈ ct.items.map (fun kv => CacheItemPair.mk kv.1 kv.2.accessCount) := by
    intro q hq
    exact (pairSort_perm _).mem_iff.1 (List.take_subset _ _ hq)
  have hsorted : (pairSort (ct.items.map
      (fun kv => CacheItemPair.mk kv.1 kv.2.accessCount))).Pairwise pairGE :=
    pairSort_sorted _
  refine ⟨?_, ?_, ?_, ?_, by decide⟩
  · rw [hMA]
    exact le_trans (List.length_filterMap_le _ _) (List.length_take_le _ _)
  · rw [hMA]
    intro item hitem
    rcases List.mem_filterMap.1 hitem with ⟨p, _, hlk⟩
    exact ⟨p.Key, hlk⟩
  · rw [hMA]
    apply pairwise_filterMap_rel _ pairGE _ _
      (List.Pairwise.sublist (List.take_sublist _ _) hsorted)
    intro p q a b hpmem hqmem hpq hfa hfb
    have ha := lookup_accessCount ct hwf p (hpairs_mem p hpmem) hfa
    have hb := lookup_accessCount ct hwf q (hpairs_mem q hqmem) hfb
    unfold pairGE at hpq
    omega
  · intro kv hkv hnot r hr
    have hp0mem : CacheItemPair.mk kv.1 kv.2.accessCount ∈
        ct.items.map (fun kv => CacheItemPair.mk kv.1 kv.2.accessCount) :=
      List.mem_map.2 ⟨kv, hkv, rfl⟩
    have hp0sorted : CacheItemPair.mk kv.1 kv.2.accessCount ∈
        pairSort (ct.items.map (fun kv => CacheItemPair.mk kv.1 kv.2.accessCount)) :=
      (pairSort_perm _).mem_iff.2 hp0mem
    rw [← List.take_append_drop n.toNat (pairSort (ct.items.map
      (fun kv => CacheItemPair.mk kv.1 kv.2.accessCount)))] at hp0sorted
    rcases List.mem_append.1 hp0sorted with htake | hdrop
    · exfalso
      apply hnot
      rw [hMA]
      refine List.mem_filterMap.2 ⟨CacheItemPair.mk kv.1 kv.2.accessCount, htake, ?_⟩
      exact mapLookup_of_mem (show (kv.1, kv.2) ∈ ct.items from hkv) hwf
    · rw [hMA] at hr
      rcases List.mem_filterMap.1 hr with ⟨q, hqtake, hfq⟩
      have hge : pairGE q (CacheItemPair.mk kv.1 kv.2.accessCount) := by
        have hsplit := hsorted
        rw [← List.take_append_drop n.toNat (pairSort (ct.items.map
          (fun kv => CacheItemPair.mk kv.1 kv.2.accessCount)))] at hsplit
        exact (List.pairwise_append.1 hsplit).2.2 q hqtake _ hdrop
      have hq := lookup_accessCount ct hwf q (hpairs_mem q hqtake) hfq
      unfold pairGE at hge
      simp only at hge
      omega

/-- C8 witness: on the sample `{A:5, B:1, C:3}` table, `MostAccessed 2` is
`[A, C]`. -/
theorem mostAccessed_spec_witness :
    ((0 : Int) ≤ 2 ∧ WF ctABC) ∧ MostAccessed ctABC 2 = [itemA, itemC] :=
  ⟨⟨by decide, by decide⟩, (mostAccessed_spec ctABC 2 (by decide) (by decide)).2.2.2.2⟩

/-- C10 witness: the sample loader's item (stale metadata on purpose) is
returned as is, while a fresh entry is stored under the queried key 5. -/
theorem value_loader_stores_fresh_witness :
    (WF ctL ∧ mapLookup 5 ctL.items = none) ∧
      (Value ctL 5 [] 0).2.1 = Except.ok itemL ∧
      mapLookup 5 (Value ctL 5 [] 0).1.items = some (NewCacheItem 5 itemL.data itemL.lifeSpan 0) :=
  ⟨⟨by decide, by decide⟩,
    (value_loader_stores_fresh ctL 5 [] 0 (fun _ _ => some itemL) itemL
      (by decide) (by decide) rfl rfl).1,
    (value_loader_stores_fresh ctL 5 [] 0 (fun _ _ => some itemL) itemL
      (by decide) (by decide) rfl rfl).2.1⟩

end Cache2go
